import Mathlib

/-!
Verification model of the rpm-spec editor extension (`src/extension.ts`).

The extension spawns `rpmlint` on a document, parses its stdout lines with
the regular expression

  `^<escapedFilePath>:(?:(?<line>\d+):)?\s*(?<severity>\S)+:\s*(?<body>.+)$`

into diagnostics, and manages activation / language-client lifecycle.
The definitions below embed that logic: the regex is modelled with its
JavaScript backtracking semantics (greedy quantifiers, optional group
tried first, `.` not matching line terminators), and the event-driven
parts (sanity probe, lint trigger, readline events, LSP probe) are
modelled as explicit state-transition functions.
-/

namespace RpmSpec

abbrev Chars := List Char

/-- JavaScript `\s`: WhiteSpace ∪ LineTerminator
(tab, LF, VT, FF, CR, space, NBSP, Ogham space, Zs range U+2000–U+200A,
LS, PS, NNBSP, MMSP, ideographic space, ZWNBSP). -/
def jsSpace (c : Char) : Bool :=
  c.toNat = 0x9 || c.toNat = 0xa || c.toNat = 0xb || c.toNat = 0xc ||
  c.toNat = 0xd || c.toNat = 0x20 || c.toNat = 0xa0 || c.toNat = 0x1680 ||
  (0x2000 ≤ c.toNat && c.toNat ≤ 0x200a) ||
  c.toNat = 0x2028 || c.toNat = 0x2029 || c.toNat = 0x202f ||
  c.toNat = 0x205f || c.toNat = 0x3000 || c.toNat = 0xfeff

/-- JavaScript `.` (dotAll off): any character except a line terminator. -/
def dotOK (c : Char) : Bool :=
  !(c.toNat = 0xa || c.toNat = 0xd || c.toNat = 0x2028 || c.toNat = 0x2029)

/-- Strip a literal pattern from the front of a character list, returning
the remainder; `none` when the list does not start with the pattern.
This models the regex-escaped file-path literal at the start of the
pattern (escaping makes every path character match literally). -/
def stripPre : Chars → Chars → Option Chars
  | [], s => some s
  | _ :: _, [] => none
  | p :: ps, c :: cs => if p = c then stripPre ps cs else none

/-- `\s*(?<body>.+)$` with JS semantics: greedy `\s*` with backtracking,
`.` rejecting line terminators, `$` at end of input.  Returns the
captured body.  If the remainder contains a line terminator no split
succeeds; if it is all whitespace the body is the final character. -/
def matchBody (s : Chars) : Option Chars :=
  let rest := s.dropWhile jsSpace
  if rest.isEmpty then
    match s.getLast? with
    | none => none
    | some c => if dotOK c then some [c] else none
  else
    if rest.all dotOK then some rest else none

/-- Backtracking search for `(?<severity>\S)+:\s*(?<body>.+)$` at the
start of `s`, trying group lengths from the argument downward (the
greedy order of the engine).  A group of length `g+1` needs `s[g+1] = ':'`
(the literal colon), captures `s[g]` as the severity (the last iteration
of the one-character group), and matches the body from `s[g+2]`. -/
def sevSplit (s : Chars) : Nat → Option (Char × Chars)
  | 0 => none
  | g + 1 =>
    if s.getD (g + 1) ' ' = ':' then
      match matchBody (s.drop (g + 2)) with
      | some b => some (s.getD g ' ', b)
      | none => sevSplit s g
    else sevSplit s g

/-- `\s*(?<severity>\S)+:\s*(?<body>.+)$`: skip leading whitespace
(deterministic: giving a whitespace character back to `\S` always fails),
then search group lengths from the maximal non-whitespace run downward. -/
def matchTail (s : Chars) : Option (Char × Chars) :=
  let t := s.dropWhile jsSpace
  sevSplit t (t.takeWhile (fun c => !jsSpace c)).length

/-- Decimal value of a digit list, as produced by the `\d+` capture. -/
def digitsToNat (ds : Chars) : Nat :=
  ds.foldl (fun a c => a * 10 + (c.toNat - '0'.toNat)) 0

/-- `(?:(?<line>\d+):)?\s*(?<severity>\S)+:\s*(?<body>.+)$` after the
path colon.  The optional group is tried first (greedy `?`); `\d+`
shrinking never helps because a shorter digit run is still followed by a
digit, not `:`, so only the maximal digit run is a candidate.  When the
group path fails overall, the engine retries with the group skipped. -/
def matchRest (s : Chars) : Option (Option Nat × Char × Chars) :=
  let ds := s.takeWhile Char.isDigit
  let withNum : Option (Option Nat × Char × Chars) :=
    if ds.length ≠ 0 ∧ s.getD ds.length ' ' = ':' then
      match matchTail (s.drop (ds.length + 1)) with
      | some (c, b) => some (some (digitsToNat ds), c, b)
      | none => none
    else none
  match withNum with
  | some r => some r
  | none =>
    match matchTail s with
    | some (c, b) => some (none, c, b)
    | none => none

/-- `diagnosticPattern.exec(line)` for the document at `fsPath`: the line
must start with the literal file path and a colon, then `matchRest`.
Returns (optional 1-based line number, severity character, body). -/
def parseLine (fsPath : String) (line : String) : Option (Option Nat × Char × String) :=
  match stripPre (fsPath.data ++ [':']) line.data with
  | none => none
  | some rest =>
    match matchRest rest with
    | some (ln, sev, body) => some (ln, sev, String.mk body)
    | none => none

inductive Severity where
  | Warning
  | Error
deriving DecidableEq, Repr

/-- `SEVERITY[match.groups?.severity ?? 'W'] ?? vscode.DiagnosticSeverity.Warning`:
the table maps `E` to Error and `W` to Warning; every other character
misses the table and falls back to Warning. -/
def severityOf (c : Char) : Severity :=
  if c = 'E' then Severity.Error
  else if c = 'W' then Severity.Warning
  else Severity.Warning

structure Diagnostic where
  line : Nat
  message : String
  severity : Severity
deriving DecidableEq, Repr

/-- `lineNumber = match.groups?.line ? Number(line) - 1 : 0;
safeLineNumber = Math.min(Math.max(lineNumber, 0), Math.max(document.lineCount - 1, 0))`.
JS truthiness: a captured digit string (even `"0"`) is truthy. -/
def safeLine (ln : Option Nat) (lineCount : Nat) : Nat :=
  let lineNumber : Int := match ln with
    | some n => (n : Int) - 1
    | none => 0
  (min (max lineNumber 0) (max ((lineCount : Int) - 1) 0)).toNat

structure Document where
  languageId : String
  scheme : String
  isUntitled : Bool
  fsPath : String
  uri : String
  lineCount : Nat

/-- One stdout line of the linter, turned into a diagnostic when the
pattern matches (range = the full line at the clamped index). -/
def processLine (doc : Document) (l : String) : Option Diagnostic :=
  match parseLine doc.fsPath l with
  | some (ln, sev, body) =>
    some { line := safeLine ln doc.lineCount, message := body, severity := severityOf sev }
  | none => none

/-- All diagnostics of one lint run, in stdout arrival order. -/
def lintRun (doc : Document) (lines : List String) : List Diagnostic :=
  lines.filterMap (processLine doc)

/-- `line` starts with the literal pattern `p` (used to state that a
stdout line begins with the exact file path followed by a colon). -/
def beginsWith (p s : Chars) : Bool :=
  (stripPre p s).isSome

/-! ## Lifecycle models -/

structure Config where
  lint : Bool
  lsp : Bool
  rpmlintPath : String
  lspPath : String

/-- What a spawned probe process does: fire `exit` (with a possibly-null
code) or fire `error` (spawn failure). -/
inductive ProbeEvent where
  | exited (code : Option Int)
  | failed

structure SanityResult where
  exitCode : Option Int
  warned : Bool

/-- `checkSanity`: resolves the exit code on `exit`; on `error` shows the
warning `rpmlint cannot be launched` and resolves `null`. -/
def checkSanity : ProbeEvent → SanityResult
  | .exited c => { exitCode := c, warned := false }
  | .failed => { exitCode := none, warned := true }

/-- JS `!exitCode` for `number | null`: `null` and `0` are falsy. -/
def falsyCode : Option Int → Bool
  | none => true
  | some c => c = 0

/-- `activate`: the diagnostic subscriptions (open/save/close handlers,
the initial pass over open documents, and the collection's disposal hook)
are registered iff `!exitCode && config.get('lint', true)`. -/
def registersLint (cfg : Config) (ev : ProbeEvent) : Bool :=
  falsyCode (checkSanity ev).exitCode && cfg.lint

/-- Whether the sanity probe showed a warning notification. -/
def sanityWarned (ev : ProbeEvent) : Bool :=
  (checkSanity ev).warned

/-- `checkLspAvailable`: `(available, warned)`.  Any `exit` (whatever the
code) resolves `true`; only a spawn `error` resolves `false`.  Neither
handler shows a notification. -/
def checkLspProbe : ProbeEvent → Bool × Bool
  | .exited _ => (true, false)
  | .failed => (false, false)

structure LspClient where
  id : String
  command : String
  args : List String
deriving DecidableEq, Repr

/-- The LSP half of `activate`: skipped when `rpmspec.lsp` is false;
otherwise the client is constructed and started iff the probe resolved
available, with `command = lspPath` and `args = ['--stdio']`. -/
def activateLsp (cfg : Config) (ev : ProbeEvent) : Option LspClient :=
  if !cfg.lsp then none
  else if (checkLspProbe ev).1 then
    some { id := "rpm-spec-lsp", command := cfg.lspPath, args := ["--stdio"] }
  else none

/-- `deactivate`: number of `stop` calls issued — one when a client was
started, zero otherwise. -/
def deactivateStops : Option LspClient → Nat
  | some _ => 1
  | none => 0

/-- The guards at the top of `lint`: language id must be `rpm-spec`, the
scheme `file`, and the document not untitled. -/
def matchesMode (doc : Document) : Bool :=
  doc.languageId == "rpm-spec" && doc.scheme == "file" && !doc.isUntitled

/-- The diagnostic collection: URI → currently published diagnostic set. -/
def DiagMap := String → Option (List Diagnostic)

def DiagMap.set (m : DiagMap) (u : String) (ds : List Diagnostic) : DiagMap :=
  fun v => if v = u then some ds else m v

def DiagMap.del (m : DiagMap) (u : String) : DiagMap :=
  fun v => if v = u then none else m v

/-- What the linter subprocess of one `lint` call does: emit stdout lines
and close, or fail to spawn. -/
inductive LintProcOutcome where
  | output (lines : List String)
  | spawnError

structure LintEffect where
  diags : DiagMap
  spawned : Bool
  warnings : Nat

/-- One `lint(document)` trigger (open, save, or the initial pass):
guards, the disabled-lint clear, and otherwise the spawn whose outcome
either publishes the parsed run on stream close or, on spawn error,
publishes the empty set and shows the `rpmlint failed` warning. -/
def lintStep (cfg : Config) (doc : Document) (outcome : LintProcOutcome)
    (m : DiagMap) : LintEffect :=
  if !matchesMode doc then { diags := m, spawned := false, warnings := 0 }
  else if !cfg.lint then { diags := m.del doc.uri, spawned := false, warnings := 0 }
  else
    match outcome with
    | .output lines =>
      { diags := m.set doc.uri (lintRun doc lines), spawned := true, warnings := 0 }
    | .spawnError =>
      { diags := m.set doc.uri [], spawned := true, warnings := 1 }

/-- Events delivered by the readline interface over the linter's stdout. -/
inductive ReaderEvent where
  | line (text : String)
  | close

structure ReaderState where
  acc : List Diagnostic
  published : List (String × List Diagnostic)
deriving Repr

/-- The two readline handlers: `line` appends a parsed diagnostic to the
array (or ignores the line); `close` performs the single
`diagnostics.set(document.uri, array)`. -/
def readerStep (doc : Document) (st : ReaderState) : ReaderEvent → ReaderState
  | .line t =>
    match processLine doc t with
    | some d => { st with acc := st.acc ++ [d] }
    | none => st
  | .close => { st with published := st.published ++ [(doc.uri, st.acc)] }

/-- Run the readline handlers over a whole event sequence. -/
def runReader (doc : Document) (evs : List ReaderEvent) : ReaderState :=
  evs.foldl (readerStep doc) { acc := [], published := [] }

/-! ## Concrete fixtures used by witnesses -/

def cfgOn : Config := { lint := true, lsp := true, rpmlintPath := "rpmlint", lspPath := "rpm_lsp_server" }

def cfgNoLint : Config := { lint := false, lsp := true, rpmlintPath := "rpmlint", lspPath := "rpm_lsp_server" }

def docWs : Document :=
  { languageId := "rpm-spec", scheme := "file", isUntitled := false,
    fsPath := "/ws/pkg.spec", uri := "file:///ws/pkg.spec", lineCount := 5 }

def mapStale : DiagMap :=
  fun v => if v = "file:///ws/pkg.spec" then some [{ line := 1, message := "old", severity := Severity.Error }] else none

/-! ## List helper lemmas -/

theorem stripPre_append (p s : Chars) : stripPre p (p ++ s) = some s := by
  induction p with
  | nil => rfl
  | cons c cs ih => simp [stripPre, ih]

theorem takeWhile_append_all (p : Char → Bool) (xs ys : Chars)
    (h : ∀ c ∈ xs, p c = true) :
    (xs ++ ys).takeWhile p = xs ++ ys.takeWhile p := by
  induction xs with
  | nil => simp
  | cons c cs ih =>
    simp only [List.cons_append, List.takeWhile_cons, h c (by simp), if_true]
    rw [ih (fun d hd => h d (by simp [hd]))]

theorem getD_append_lt (xs ys : Chars) (i : Nat) (d : Char) (h : i < xs.length) :
    (xs ++ ys).getD i d = xs.getD i d := by
  induction xs generalizing i with
  | nil => simp at h
  | cons c cs ih =>
    cases i with
    | zero => rfl
    | succ j =>
      simp only [List.cons_append, List.getD_cons_succ]
      exact ih j (by simp at h; omega)

theorem getD_append_ge (xs ys : Chars) (i : Nat) (d : Char) :
    (xs ++ ys).getD (xs.length + i) d = ys.getD i d := by
  induction xs with
  | nil => simp
  | cons c cs ih =>
    have : (c :: cs).length + i = (cs.length + i) + 1 := by simp; omega
    rw [this]
    simpa using ih

theorem getD_mem (l : Chars) (i : Nat) (d : Char) (h : i < l.length) :
    l.getD i d ∈ l := by
  induction l generalizing i with
  | nil => simp at h
  | cons c cs ih =>
    cases i with
    | zero => simp
    | succ j =>
      simp only [List.getD_cons_succ]
      exact List.mem_cons_of_mem c (ih j (by simp at h; omega))

theorem dropWhile_head_not (p : Char → Bool) (l : Chars) (y : Char) (ys : Chars)
    (h : l.dropWhile p = y :: ys) : p y = false := by
  induction l with
  | nil => simp at h
  | cons c cs ih =>
    rw [List.dropWhile_cons] at h
    by_cases hp : p c
    · rw [if_pos hp] at h
      exact ih h
    · rw [if_neg hp] at h
      cases h
      simpa using hp

theorem getD_last (l : Chars) (d : Char) (h : l ≠ []) :
    l.getD (l.length - 1) d = l.getLastD d := by
  induction l with
  | nil => exact absurd rfl h
  | cons c cs ih =>
    cases hcs : cs with
    | nil => rfl
    | cons e es =>
      rw [List.getLastD_cons]
      subst hcs
      have hlen : (c :: e :: es).length - 1 = ((e :: es).length - 1) + 1 := by
        simp
      rw [hlen, List.getD_cons_succ, ih (by simp)]
      cases es <;> rfl

/-! ## Characterization of the regex matcher on well-formed lines -/

theorem matchBody_eq_self (s : Chars) (h1 : s ≠ []) (h2 : jsSpace (s.headD ' ') = false)
    (h3 : s.all dotOK = true) : matchBody s = some s := by
  cases s with
  | nil => exact absurd rfl h1
  | cons c cs =>
    have hc : jsSpace c = false := h2
    unfold matchBody
    simp only [List.dropWhile_cons, hc, Bool.false_eq_true, if_false, List.isEmpty_cons, h3]
    simp

theorem sevSplit_descend (s : Chars) (base : Nat) (k : Nat)
    (h : ∀ m, base < m → m ≤ base + k → s.getD m ' ' ≠ ':') :
    sevSplit s (base + k) = sevSplit s base := by
  induction k with
  | zero => rfl
  | succ k ih =>
    have hb : base + (k + 1) = (base + k) + 1 := by omega
    rw [hb]
    have hcol : s.getD (base + k + 1) ' ' ≠ ':' := h _ (by omega) (by omega)
    rw [sevSplit, if_neg hcol]
    exact ih (fun m hm1 hm2 => h m hm1 (by omega))

theorem sevSplit_hit (s : Chars) (g : Nat) (b : Chars)
    (hcol : s.getD (g + 1) ' ' = ':') (hb : matchBody (s.drop (g + 2)) = some b) :
    sevSplit s (g + 1) = some (s.getD g ' ', b) := by
  rw [sevSplit, if_pos hcol, hb]

theorem matchTail_form (tok msg : Chars)
    (htne : tok ≠ [])
    (htws : ∀ c ∈ tok, jsSpace c = false)
    (htcol : ∀ c ∈ tok, c ≠ ':')
    (hmne : msg ≠ [])
    (hmhead : jsSpace (msg.headD ' ') = false)
    (hmrun : ':' ∉ msg.takeWhile (fun c => !jsSpace c))
    (hmdot : msg.all dotOK = true) :
    matchTail (tok ++ ':' :: msg) = some (tok.getLastD ' ', msg) := by
  obtain ⟨c, cs, rfl⟩ : ∃ c cs, tok = c :: cs := by
    cases tok with
    | nil => exact absurd rfl htne
    | cons c cs => exact ⟨c, cs, rfl⟩
  set tok : Chars := c :: cs with htok
  set mrun : Chars := msg.takeWhile (fun c => !jsSpace c) with hmrundef
  have hdrop : (tok ++ ':' :: msg).dropWhile jsSpace = tok ++ ':' :: msg := by
    rw [htok, List.cons_append, List.dropWhile_cons,
      htws c (by rw [htok]; exact List.mem_cons_self c cs)]
    simp
  have hrun : (tok ++ ':' :: msg).takeWhile (fun c => !jsSpace c) = tok ++ ':' :: mrun := by
    rw [takeWhile_append_all _ _ _ (fun d hd => by simp [htws d hd]), List.takeWhile_cons,
      if_pos (show ((fun c => !jsSpace c) ':') = true from by decide)]
  have hlen : (tok ++ ':' :: mrun).length = tok.length + (1 + mrun.length) := by
    simp; omega
  -- every colon-candidate index above tok.length fails
  have hnocol : ∀ m, tok.length < m → m ≤ tok.length + (1 + mrun.length) →
      (tok ++ ':' :: msg).getD m ' ' ≠ ':' := by
    intro m hm1 hm2
    have hm3 : m = (tok ++ [':']).length + (m - tok.length - 1) := by simp; omega
    rw [hm3, show tok ++ ':' :: msg = (tok ++ [':']) ++ msg by simp, getD_append_ge]
    set i : Nat := m - tok.length - 1 with hi
    have hile : i ≤ mrun.length := by simp at hm2 ⊢; omega
    rcases Nat.lt_or_ge i mrun.length with hlt | hge
    · have hpre : msg.getD i ' ' = mrun.getD i ' ' := by
        conv_lhs => rw [← List.takeWhile_append_dropWhile (p := fun c => !jsSpace c) (l := msg)]
        rw [← hmrundef, getD_append_lt _ _ _ _ hlt]
      rw [hpre]
      intro hc
      exact hmrun (hc ▸ getD_mem mrun i ' ' hlt)
    · have hieq : i = mrun.length := by omega
      have : msg.getD i ' ' = (msg.dropWhile (fun c => !jsSpace c)).getD 0 ' ' := by
        conv_lhs => rw [← List.takeWhile_append_dropWhile (p := fun c => !jsSpace c) (l := msg)]
        rw [← hmrundef, hieq, ← Nat.add_zero mrun.length, getD_append_ge]
      rw [this]
      cases hd : msg.dropWhile (fun c => !jsSpace c) with
      | nil => decide
      | cons y ys =>
        have hy : (fun c => !jsSpace c) y = false := dropWhile_head_not _ _ _ _ hd
        simp only [List.getD_cons_zero]
        intro hyc
        rw [hyc] at hy
        exact absurd hy (by decide)
  have hbase : sevSplit (tok ++ ':' :: msg) tok.length = some (tok.getLastD ' ', msg) := by
    have htl : tok.length = (tok.length - 1) + 1 := by
      rw [htok]; simp only [List.length_cons]; omega
    rw [htl]
    have hcol : (tok ++ ':' :: msg).getD ((tok.length - 1) + 1) ' ' = ':' := by
      rw [← htl, ← Nat.add_zero tok.length, getD_append_ge]
      rfl
    have hdropb : (tok ++ ':' :: msg).drop ((tok.length - 1) + 2) = msg := by
      have : (tok.length - 1) + 2 = (tok ++ [':']).length := by rw [htok]; simp
      rw [this, show tok ++ ':' :: msg = (tok ++ [':']) ++ msg by simp, List.drop_left]
    rw [sevSplit_hit _ _ msg hcol (by rw [hdropb]; exact matchBody_eq_self msg hmne hmhead hmdot)]
    rw [getD_append_lt _ _ _ _ (by rw [htok]; simp only [List.length_cons]; omega),
      getD_last tok ' ' htne]
  unfold matchTail
  simp only [hdrop]
  rw [hrun, hlen, sevSplit_descend _ _ _ hnocol, hbase]

theorem matchRest_form (ns tok msg : Chars)
    (hns : ns ≠ []) (hnsd : ∀ c ∈ ns, c.isDigit = true)
    (htne : tok ≠ []) (htws : ∀ c ∈ tok, jsSpace c = false) (htcol : ∀ c ∈ tok, c ≠ ':')
    (hmne : msg ≠ []) (hmhead : jsSpace (msg.headD ' ') = false)
    (hmrun : ':' ∉ msg.takeWhile (fun c => !jsSpace c)) (hmdot : msg.all dotOK = true) :
    matchRest (ns ++ ':' :: (tok ++ ':' :: msg)) =
      some (some (digitsToNat ns), tok.getLastD ' ', msg) := by
  have hds : (ns ++ ':' :: (tok ++ ':' :: msg)).takeWhile Char.isDigit = ns := by
    rw [takeWhile_append_all _ _ _ hnsd, List.takeWhile_cons,
      if_neg (show ¬(Char.isDigit ':' = true) from by decide)]
    simp
  have hcolon : (ns ++ ':' :: (tok ++ ':' :: msg)).getD ns.length ' ' = ':' := by
    rw [← Nat.add_zero ns.length, getD_append_ge]
    rfl
  have hdropn : (ns ++ ':' :: (tok ++ ':' :: msg)).drop (ns.length + 1) = tok ++ ':' :: msg := by
    rw [show ns ++ ':' :: (tok ++ ':' :: msg) = (ns ++ [':']) ++ (tok ++ ':' :: msg) from by simp,
      show ns.length + 1 = (ns ++ [':']).length from by simp, List.drop_left]
  unfold matchRest
  simp only [hds]
  rw [if_pos ⟨fun h0 => hns (List.length_eq_zero.mp h0), hcolon⟩, hdropn,
    matchTail_form tok msg htne htws htcol hmne hmhead hmrun hmdot]

theorem parseLine_form (fp : String) (ns tok msg : Chars)
    (hns : ns ≠ []) (hnsd : ∀ c ∈ ns, c.isDigit = true)
    (htne : tok ≠ []) (htws : ∀ c ∈ tok, jsSpace c = false) (htcol : ∀ c ∈ tok, c ≠ ':')
    (hmne : msg ≠ []) (hmhead : jsSpace (msg.headD ' ') = false)
    (hmrun : ':' ∉ msg.takeWhile (fun c => !jsSpace c)) (hmdot : msg.all dotOK = true) :
    parseLine fp (String.mk (fp.data ++ ':' :: (ns ++ ':' :: (tok ++ ':' :: msg)))) =
      some (some (digitsToNat ns), tok.getLastD ' ', String.mk msg) := by
  unfold parseLine
  rw [show (String.mk (fp.data ++ ':' :: (ns ++ ':' :: (tok ++ ':' :: msg)))).data =
      (fp.data ++ [':']) ++ (ns ++ ':' :: (tok ++ ':' :: msg)) from by simp,
    stripPre_append]
  simp only [matchRest_form ns tok msg hns hnsd htne htws htcol hmne hmhead hmrun hmdot]

theorem safeLine_in_range (n lc : Nat) (h1 : 1 ≤ n) (h2 : n ≤ lc) :
    safeLine (some n) lc = n - 1 := by
  simp only [safeLine]
  omega

theorem severityOf_eq (c : Char) :
    severityOf c = if c = 'E' then Severity.Error else Severity.Warning := by
  unfold severityOf
  by_cases h : c = 'E' <;> simp [h]

end RpmSpec

namespace RpmSpec

/-! ## Lemmas about the readline fold -/

theorem foldl_lineEvents (doc : Document) (lines : List String) (st : ReaderState) :
    (lines.map ReaderEvent.line).foldl (readerStep doc) st =
      { st with acc := st.acc ++ lintRun doc lines } := by
  induction lines generalizing st with
  | nil => simp [lintRun]
  | cons t rest ih =>
    simp only [List.map_cons, List.foldl_cons]
    rw [ih]
    cases h : processLine doc t with
    | none => simp [readerStep, h, lintRun, List.filterMap_cons, ReaderState.mk.injEq]
    | some d => simp [readerStep, h, lintRun, List.filterMap_cons, ReaderState.mk.injEq]

end RpmSpec

namespace RpmSpec

/-- C7: within one lint invocation the stdout lines are processed in
arrival order with no sorting or de-duplication (the result is exactly
the in-order `filterMap` of the line handler), the diagnostic set is
written exactly once, on stream close, and no publication happens while
lines are still arriving. -/
theorem lint_publishes_once_in_order (doc : Document) (lines : List String) :
    runReader doc (lines.map ReaderEvent.line ++ [ReaderEvent.close]) =
      { acc := lintRun doc lines, published := [(doc.uri, lintRun doc lines)] } ∧
    (runReader doc (lines.map ReaderEvent.line)).published = [] ∧
    lintRun doc lines = lines.filterMap (processLine doc) := by
  refine ⟨?_, ?_, rfl⟩
  · unfold runReader
    rw [List.foldl_append, foldl_lineEvents]
    simp [readerStep]
  · unfold runReader
    rw [foldl_lineEvents]

/-- C1 counterexample: when the sanity probe hits a spawn error the
warning is indeed shown, but — contrary to the claim — the diagnostic
subscriptions ARE registered: `checkSanity` resolves `null`, and
`activate` tests `!exitCode`, which is true for `null`. -/
theorem sanity_spawn_error_still_registers :
    sanityWarned ProbeEvent.failed = true ∧
    registersLint cfgOn ProbeEvent.failed = true := by
  constructor
  · rfl
  · rfl

/-- C1 amended: on a spawn error of the sanity probe a warning
notification is shown, but the diagnostic subscriptions are still
registered whenever the lint configuration flag is enabled (the probe
resolves a null exit code, which the activation guard `!exitCode` treats
as sane); registration is prevented only by a non-zero exit code. -/
theorem sanity_spawn_error_behavior (cfg : Config) :
    sanityWarned ProbeEvent.failed = true ∧
    registersLint cfg ProbeEvent.failed = cfg.lint ∧
    (∀ c : Int, c ≠ 0 → registersLint cfg (ProbeEvent.exited (some c)) = false) := by
  refine ⟨rfl, ?_, ?_⟩
  · simp [registersLint, checkSanity, falsyCode]
  · intro c hc
    simp [registersLint, checkSanity, falsyCode, hc]

/-- Witness for the amended C1 at concrete inputs. -/
theorem sanity_spawn_error_behavior_witness :
    sanityWarned ProbeEvent.failed = true ∧
    registersLint cfgOn ProbeEvent.failed = cfgOn.lint ∧
    registersLint cfgOn (ProbeEvent.exited (some 2)) = false := by
  obtain ⟨h1, h2, h3⟩ := sanity_spawn_error_behavior cfgOn
  exact ⟨h1, h2, h3 2 (by decide)⟩

/-- C5: with the lint configuration flag disabled, a lint trigger never
spawns a linter subprocess, and for any document passing the mode guards
the trigger deletes that document's diagnostic set. -/
theorem lint_disabled_clears_and_never_spawns (cfg : Config) (doc : Document)
    (outcome : LintProcOutcome) (m : DiagMap) (h : cfg.lint = false) :
    (lintStep cfg doc outcome m).spawned = false ∧
    (matchesMode doc = true → (lintStep cfg doc outcome m).diags doc.uri = none) := by
  unfold lintStep
  cases hm : matchesMode doc with
  | false => simp [hm]
  | true => simp [hm, h, DiagMap.del]

/-- Witness for C5: a stale entry is cleared and nothing is spawned. -/
theorem lint_disabled_clears_witness :
    (lintStep cfgNoLint docWs (LintProcOutcome.output []) mapStale).spawned = false ∧
    (lintStep cfgNoLint docWs (LintProcOutcome.output []) mapStale).diags docWs.uri = none := by
  obtain ⟨h1, h2⟩ :=
    lint_disabled_clears_and_never_spawns cfgNoLint docWs (LintProcOutcome.output []) mapStale rfl
  exact ⟨h1, h2 (by decide)⟩

/-- C6: when the linter subprocess fails to spawn, the document's
diagnostic set is replaced by the empty set (stale records from a prior
run are not kept) and one non-blocking warning is shown. -/
theorem lint_spawn_error_clears_and_warns (cfg : Config) (doc : Document)
    (m : DiagMap) (h1 : cfg.lint = true) (h2 : matchesMode doc = true) :
    (lintStep cfg doc LintProcOutcome.spawnError m).diags doc.uri = some [] ∧
    (lintStep cfg doc LintProcOutcome.spawnError m).warnings = 1 := by
  unfold lintStep
  simp [h1, h2, DiagMap.set]

/-- Witness for C6: the stale set for the document becomes empty. -/
theorem lint_spawn_error_clears_witness :
    (lintStep cfgOn docWs LintProcOutcome.spawnError mapStale).diags docWs.uri = some [] ∧
    (lintStep cfgOn docWs LintProcOutcome.spawnError mapStale).warnings = 1 :=
  lint_spawn_error_clears_and_warns cfgOn docWs mapStale rfl (by decide)

/-- C8: the language-server probe treats any process exit (any code,
null included) as available and only a spawn error as unavailable; on
spawn error no warning is shown and the client setup is skipped; this is
asymmetric from the linter sanity guard, which requires a null/falsy
exit code (a non-zero exit fails it while the LSP probe accepts it). -/
theorem lsp_probe_asymmetric (cfg : Config) (c : Int) (hc : c ≠ 0) :
    (∀ k : Option Int, (checkLspProbe (ProbeEvent.exited k)).1 = true) ∧
    checkLspProbe ProbeEvent.failed = (false, false) ∧
    activateLsp cfg ProbeEvent.failed = none ∧
    (checkLspProbe (ProbeEvent.exited (some c))).1 = true ∧
    falsyCode (checkSanity (ProbeEvent.exited (some c))).exitCode = false := by
  refine ⟨fun k => rfl, rfl, ?_, rfl, ?_⟩
  · unfold activateLsp checkLspProbe
    cases h : cfg.lsp <;> simp [h]
  · simp [checkSanity, falsyCode, hc]

/-- Witness for C8 at a concrete non-zero exit code. -/
theorem lsp_probe_asymmetric_witness :
    activateLsp cfgOn ProbeEvent.failed = none ∧
    (checkLspProbe (ProbeEvent.exited (some 2))).1 = true ∧
    falsyCode (checkSanity (ProbeEvent.exited (some 2))).exitCode = false := by
  obtain ⟨-, -, h3, h4, h5⟩ := lsp_probe_asymmetric cfgOn 2 (by decide)
  exact ⟨h3, h4, h5⟩

/-- C9: when the language-server probe succeeds (the process exits, with
any code), a client session is started with the configured server path
and the single transport flag `--stdio`, and deactivation invokes stop
on it exactly once. -/
theorem lsp_available_starts_client_stop_once (cfg : Config) (c : Option Int)
    (h : cfg.lsp = true) :
    activateLsp cfg (ProbeEvent.exited c) =
      some { id := "rpm-spec-lsp", command := cfg.lspPath, args := ["--stdio"] } ∧
    deactivateStops (activateLsp cfg (ProbeEvent.exited c)) = 1 := by
  unfold activateLsp checkLspProbe
  simp [h, deactivateStops]

/-- Witness for C9 at a concrete configuration and exit code. -/
theorem lsp_available_starts_client_witness :
    activateLsp cfgOn (ProbeEvent.exited (some 1)) =
      some { id := "rpm-spec-lsp", command := cfgOn.lspPath, args := ["--stdio"] } ∧
    deactivateStops (activateLsp cfgOn (ProbeEvent.exited (some 1))) = 1 :=
  lsp_available_starts_client_stop_once cfgOn (some 1) rfl

def docF : Document :=
  { languageId := "rpm-spec", scheme := "file", isUntitled := false,
    fsPath := "/f.spec", uri := "file:///f.spec", lineCount := 1 }

/-- C2 counterexample: the line `/f.spec:1:W:a:b` is of the form
`<path>:<n>:<sev>:<msg>` with `sev = 'W'` and `msg = "a:b"`, yet the
greedy `(\S)+:` consumes up to the last colon of the leading
non-whitespace run, so the produced diagnostic's message is `"b"`, not
`"a:b"` (and the severity used comes from `'a'`). -/
theorem wellformed_line_message_cex :
    processLine docF "/f.spec:1:W:a:b" =
      some { line := 0, message := "b", severity := Severity.Warning } ∧
    "b" ≠ "a:b" := by
  constructor
  · decide
  · decide

/-- C2 (amended): for every line `<path>:<n>:<sev>:<msg>` with
`1 ≤ n ≤ documentLineCount`, where the severity character is
non-whitespace and not a colon, and the message is nonempty, free of
line terminators, does not start with whitespace (the parser strips
whitespace after the severity colon) and carries no colon inside its
leading non-whitespace run (a colon there would shift the
severity/message split), the parser produces a diagnostic whose line
index is `n-1`, whose message equals `<msg>`, and whose severity is
Error for `E`, Warning for `W`, and Warning for any other character. -/
theorem wellformed_line_parses (doc : Document) (ns : Chars) (n : Nat) (sev : Char)
    (msg : Chars)
    (hns : ns ≠ []) (hnsd : ∀ c ∈ ns, c.isDigit = true) (hval : digitsToNat ns = n)
    (hn1 : 1 ≤ n) (hn2 : n ≤ doc.lineCount)
    (hsev1 : jsSpace sev = false) (hsev2 : sev ≠ ':')
    (hm1 : msg ≠ []) (hm2 : jsSpace (msg.headD ' ') = false)
    (hm3 : ':' ∉ msg.takeWhile (fun c => !jsSpace c)) (hm4 : msg.all dotOK = true) :
    processLine doc (String.mk (doc.fsPath.data ++ ':' :: (ns ++ ':' :: (sev :: ':' :: msg)))) =
      some { line := n - 1, message := String.mk msg,
             severity := if sev = 'E' then Severity.Error else Severity.Warning } := by
  have hp := parseLine_form doc.fsPath ns [sev] msg hns hnsd (by simp)
    (fun c hc => by cases hc with
      | head => exact hsev1
      | tail _ h => cases h)
    (fun c hc => by cases hc with
      | head => exact hsev2
      | tail _ h => cases h)
    hm1 hm2 hm3 hm4
  rw [show [sev] ++ ':' :: msg = sev :: ':' :: msg from rfl] at hp
  rw [show ([sev] : Chars).getLastD ' ' = sev from rfl, hval] at hp
  unfold processLine
  simp only [hp]
  rw [safeLine_in_range n doc.lineCount hn1 hn2, severityOf_eq sev]

/-- Witness for the amended C2: `/ws/pkg.spec:3:W:trailing whitespace`
against a 5-line document yields line index 2, the exact message, and
Warning severity. -/
theorem wellformed_line_parses_witness :
    processLine docWs
        (String.mk (docWs.fsPath.data ++ ':' :: (['3'] ++ ':' :: ('W' :: ':' :: "trailing whitespace".data)))) =
      some { line := 3 - 1, message := String.mk "trailing whitespace".data,
             severity := if 'W' = 'E' then Severity.Error else Severity.Warning } :=
  wellformed_line_parses docWs ['3'] 3 'W' "trailing whitespace".data
    (by decide) (by decide) (by decide) (by decide) (by decide)
    (by decide) (by decide) (by decide) (by decide) (by decide) (by decide)

/-- C3: on every matching line the diagnostic's line index is the clamp
`min (max (n-1) 0) (max (lineCount-1) 0)` of the extracted number: an
omitted number yields index 0, a number outside `[1, lineCount]` is
clamped (`n = 0` to index 0, `n > lineCount` to `lineCount - 1`), and
the index never exceeds `lineCount - 1` (index 0 for an empty
document). -/
theorem out_of_range_clamped (doc : Document) (l : String) (ln : Option Nat)
    (sev : Char) (body : String)
    (h : parseLine doc.fsPath l = some (ln, sev, body)) :
    processLine doc l =
      some { line := safeLine ln doc.lineCount, message := body,
             severity := severityOf sev } ∧
    (ln = none → safeLine ln doc.lineCount = 0) ∧
    (∀ n, ln = some n → n = 0 ∨ doc.lineCount < n →
      safeLine ln doc.lineCount = if n = 0 then 0 else doc.lineCount - 1) ∧
    safeLine ln doc.lineCount ≤ doc.lineCount - 1 := by
  refine ⟨by unfold processLine; rw [h], ?_, ?_, ?_⟩
  · rintro rfl
    simp [safeLine]
  · rintro n rfl hout
    rcases hout with rfl | hgt
    · have h0 : (if (0 : Nat) = 0 then (0 : Nat) else doc.lineCount - 1) = 0 := by simp
      rw [h0]
      simp only [safeLine]
      omega
    · rw [if_neg (by omega)]
      simp only [safeLine]
      omega
  · cases ln <;> · simp only [safeLine]; omega

/-- Witness for C3: `/ws/pkg.spec:9:E: big` on a 5-line document is
clamped to line index 4; an omitted number gives index 0. -/
theorem out_of_range_clamped_witness :
    (processLine docWs "/ws/pkg.spec:9:E: big" =
      some { line := safeLine (some 9) docWs.lineCount, message := "big",
             severity := severityOf 'E' } ∧
    ((some 9 : Option Nat) = none → safeLine (some 9) docWs.lineCount = 0) ∧
    (∀ n, (some 9 : Option Nat) = some n → n = 0 ∨ docWs.lineCount < n →
      safeLine (some 9) docWs.lineCount = if n = 0 then 0 else docWs.lineCount - 1) ∧
    safeLine (some 9) docWs.lineCount ≤ docWs.lineCount - 1) ∧
    safeLine (some 9) docWs.lineCount = 4 := by
  refine ⟨out_of_range_clamped docWs "/ws/pkg.spec:9:E: big" (some 9) 'E' "big" (by decide), ?_⟩
  decide

/-- C4: a stdout line that does not begin with the document's exact
absolute file path followed by a colon produces no diagnostic and is
silently dropped from the run. -/
theorem nonmatching_line_ignored (doc : Document) (l : String)
    (pre post : List String)
    (h : beginsWith (doc.fsPath.data ++ [':']) l.data = false) :
    processLine doc l = none ∧
    lintRun doc (pre ++ l :: post) = lintRun doc (pre ++ post) := by
  have hp : parseLine doc.fsPath l = none := by
    unfold beginsWith at h
    unfold parseLine
    cases hs : stripPre (doc.fsPath.data ++ [':']) l.data with
    | none => rfl
    | some r => rw [hs] at h; simp at h
  have hnone : processLine doc l = none := by
    unfold processLine
    rw [hp]
  refine ⟨hnone, ?_⟩
  unfold lintRun
  simp [List.filterMap_append, List.filterMap_cons, hnone]

/-- Witness for C4: `unrelated text` contributes nothing to a run. -/
theorem nonmatching_line_ignored_witness :
    processLine docWs "unrelated text" = none ∧
    lintRun docWs (["/ws/pkg.spec:3:W: a"] ++ "unrelated text" :: ["/ws/pkg.spec:E: b"]) =
      lintRun docWs (["/ws/pkg.spec:3:W: a"] ++ ["/ws/pkg.spec:E: b"]) :=
  nonmatching_line_ignored docWs "unrelated text"
    ["/ws/pkg.spec:3:W: a"] ["/ws/pkg.spec:E: b"] (by decide)

/-- C10: a line whose slot between the line number's colon and the
message colon holds any nonempty run of non-whitespace, colon-free
characters still matches, and the severity is taken from the last
character of that run (`(\S)+` keeps only its final iteration): Error
for `E`, Warning for `W`, and Warning for every other character via the
`?? Warning` fallback. -/
theorem severity_token_run (doc : Document) (ns tok msg : Chars)
    (hns : ns ≠ []) (hnsd : ∀ c ∈ ns, c.isDigit = true)
    (htne : tok ≠ []) (htws : ∀ c ∈ tok, jsSpace c = false) (htcol : ∀ c ∈ tok, c ≠ ':')
    (hmne : msg ≠ []) (hmhead : jsSpace (msg.headD ' ') = false)
    (hmrun : ':' ∉ msg.takeWhile (fun c => !jsSpace c)) (hmdot : msg.all dotOK = true) :
    processLine doc (String.mk (doc.fsPath.data ++ ':' :: (ns ++ ':' :: (tok ++ ':' :: msg)))) =
      some { line := safeLine (some (digitsToNat ns)) doc.lineCount,
             message := String.mk msg,
             severity := severityOf (tok.getLastD ' ') } ∧
    (∀ c, severityOf c = if c = 'E' then Severity.Error else Severity.Warning) := by
  refine ⟨?_, severityOf_eq⟩
  unfold processLine
  rw [parseLine_form doc.fsPath ns tok msg hns hnsd htne htws htcol hmne hmhead hmrun hmdot]

/-- Witness for C10: token `xE` gives severity from its last character
`E`, hence Error. -/
theorem severity_token_run_witness :
    (processLine docWs
        (String.mk (docWs.fsPath.data ++ ':' :: (['2'] ++ ':' :: (['x', 'E'] ++ ':' :: "msg".data)))) =
      some { line := safeLine (some (digitsToNat ['2'])) docWs.lineCount,
             message := String.mk "msg".data,
             severity := severityOf ((['x', 'E'] : Chars).getLastD ' ') } ∧
    (∀ c, severityOf c = if c = 'E' then Severity.Error else Severity.Warning)) ∧
    severityOf ((['x', 'E'] : Chars).getLastD ' ') = Severity.Error := by
  refine ⟨severity_token_run docWs ['2'] ['x', 'E'] "msg".data
    (by decide) (by decide) (by decide) (by decide) (by decide)
    (by decide) (by decide) (by decide) (by decide), ?_⟩
  decide

end RpmSpec
